import Mathlib

/-!
Verification development for the stellar-rpc request-admission layer and the
fee-distribution engine.

The fee-window code is embedded from
cmd/stellar-rpc/internal/feewindow/feewindow.go; the JSON-RPC handler wiring is
embedded from the internal package file that defines NewJSONRPCHandler and
toSnakeCase.  Machine integers are modelled as Nat and Int with explicit
reductions modulo 2 to the 64 (uint64) and two-complement wrapping (int64)
exactly where the Go code converts or overflows.  Components of this
repository that are external to the provided sources (the network limiter
package, the ledgerbucketwindow package, the protocol method-name constants,
the ledger transaction reader and the database session) are modelled from the
specification; every such definition carries a doc comment starting with
the words Modelled from the spec.
-/

/-! ## Machine-integer helpers -/

/-- Conversion uint64(x) applied to a Go int64 value x: the value modulo 2 to
the 64, as a Nat. -/
def u64OfInt64 (x : Int) : Nat := (x % (2 ^ 64 : Int)).toNat

/-- Two-complement wrapping of an unbounded integer into the int64 range, as
performed implicitly by Go int64 addition on overflow. -/
def wrapInt64 (x : Int) : Int := (x + 2 ^ 63) % 2 ^ 64 - 2 ^ 63

/-- Go uint64 subtraction a - b: wraps modulo 2 to the 64. -/
def subU64 (a b : Nat) : Nat := (((a : Int) - (b : Int)) % (2 ^ 64 : Int)).toNat

/-! ## FeeDistribution and computeFeeDistribution (feewindow.go) -/

/-- FeeDistribution from feewindow.go; uint64 and uint32 fields are modelled
as Nat. -/
structure FeeDistribution where
  Max : Nat
  Min : Nat
  Mode : Nat
  P10 : Nat
  P20 : Nat
  P30 : Nat
  P40 : Nat
  P50 : Nat
  P60 : Nat
  P70 : Nat
  P80 : Nat
  P90 : Nat
  P95 : Nat
  P99 : Nat
  FeeCount : Nat
  LedgerCount : Nat
deriving DecidableEq

/-- State of the mode-finding loop of computeFeeDistribution: the Go local
variables mode, lastVal, maxRepetitions and localRepetitions. -/
structure ModeState where
  mode : Nat
  lastVal : Nat
  maxRep : Nat
  localRep : Nat
deriving DecidableEq

/-- The body of the for-loop of computeFeeDistribution (feewindow.go lines
76-90), iterating over the sorted fees from index 1 on. -/
def modeScan : List Nat → ModeState → ModeState
  | [], st => st
  | x :: xs, st =>
    if x = st.lastVal then
      modeScan xs ⟨st.mode, st.lastVal, st.maxRep, st.localRep + 1⟩
    else if st.localRep > st.maxRep then
      modeScan xs ⟨st.lastVal, x, st.localRep, 0⟩
    else
      modeScan xs ⟨st.mode, x, st.maxRep, 0⟩

/-- The mode computation of computeFeeDistribution on the ascending-sorted
fees: initial state mode = lastVal = fees[0], then the scan, then the final
check that promotes the last cluster when it is strictly the longest. -/
def computeModeGo (sorted : List Nat) : Nat :=
  match sorted with
  | [] => 0
  | f0 :: rest =>
    let st := modeScan rest ⟨f0, f0, 0, 0⟩
    if st.localRep > st.maxRep then sorted.getD (sorted.length - 1) 0 else st.mode

/-- The 1-based nearest-rank index kth = ceiling(p * count / 100) computed in
computeFeeDistribution as ((p * count) + 100 - 1) / 100. -/
def pctIndex (p count : Nat) : Nat := (p * count + 100 - 1) / 100

/-- The percentile closure of computeFeeDistribution: fees[kth-1] on the
sorted fees. -/
def percentileOf (sorted : List Nat) (p : Nat) : Nat :=
  sorted.getD (pctIndex p sorted.length - 1) 0

/-- computeFeeDistribution from feewindow.go.  slices.Sort is modelled by
List.insertionSort with the ascending order; uint32(count) is count modulo
2 to the 32. -/
def computeFeeDistribution (fees : List Nat) (ledgerCount : Nat) : FeeDistribution :=
  if fees.length = 0 then
    ⟨0, 0, 0, 0, 0, 0, 0, 0, 0, 0, 0, 0, 0, 0, 0, 0⟩
  else
    let sorted := List.insertionSort (· ≤ ·) fees
    { Max := sorted.getD (sorted.length - 1) 0
      Min := sorted.getD 0 0
      Mode := computeModeGo sorted
      P10 := percentileOf sorted 10
      P20 := percentileOf sorted 20
      P30 := percentileOf sorted 30
      P40 := percentileOf sorted 40
      P50 := percentileOf sorted 50
      P60 := percentileOf sorted 60
      P70 := percentileOf sorted 70
      P80 := percentileOf sorted 80
      P90 := percentileOf sorted 90
      P95 := percentileOf sorted 95
      P99 := percentileOf sorted 99
      FeeCount := fees.length % 2 ^ 32
      LedgerCount := ledgerCount }

/-! ## Runs of equal consecutive values (specification side, for the mode) -/

/-- Runs of equal consecutive values of a list, starting from a pending run
with value v seen k times. -/
def runsAux : Nat → Nat → List Nat → List (Nat × Nat)
  | v, k, [] => [(v, k)]
  | v, k, x :: xs => if x = v then runsAux v (k + 1) xs else (v, k) :: runsAux x 1 xs

/-- Runs of equal consecutive values of a list, as pairs (value, length). -/
def runsOf : List Nat → List (Nat × Nat)
  | [] => []
  | x :: xs => runsAux x 1 xs

/-- Left fold that keeps the current best (value, length) pair and replaces it
only by a strictly longer run, so the first-encountered maximal run wins. -/
def bestRun : List (Nat × Nat) → Nat × Nat → Nat × Nat
  | [], best => best
  | r :: rs, best => bestRun rs (if r.2 > best.2 then r else best)

/-- Position i is the first-encountered maximal-length run of rs: it is in
bounds, no run is longer, and every earlier run is strictly shorter. -/
def IsFirstLongestRun (rs : List (Nat × Nat)) (i : Nat) : Prop :=
  i < rs.length ∧
  (∀ j, j < rs.length → (rs.getD j (0, 0)).2 ≤ (rs.getD i (0, 0)).2) ∧
  (∀ j, j < i → (rs.getD j (0, 0)).2 < (rs.getD i (0, 0)).2)

/-! ## Ledger bucket window and FeeWindow -/

/-- LedgerBucket from the ledgerbucketwindow package, as used by feewindow.go:
a ledger sequence, a close timestamp and the bucket content. -/
structure LedgerBucket (α : Type) where
  LedgerSeq : Nat
  LedgerCloseTimestamp : Int
  BucketContent : α
deriving DecidableEq

/-- Modelled from the spec: LedgerBucketWindow (the ledgerbucketwindow package
is not among the provided sources): a fixed-capacity ordered queue of buckets,
oldest first. -/
structure LedgerBucketWindow (α : Type) where
  capacity : Nat
  buckets : List (LedgerBucket α)
deriving DecidableEq

/-- Modelled from the spec: eviction of oldest buckets down to the window
capacity (appending past capacity evicts the oldest bucket, FIFO). -/
def dropToCapacity {α : Type} (l : List (LedgerBucket α)) (cap : Nat) : List (LedgerBucket α) :=
  if l.length ≤ cap then l else l.drop (l.length - cap)

/-- Modelled from the spec: LedgerBucketWindow.Append; buckets are strictly
increasing by ledger sequence (an out-of-order append is rejected with an
error), and appending past capacity evicts the oldest bucket. -/
def LedgerBucketWindow.Append {α : Type} (w : LedgerBucketWindow α) (b : LedgerBucket α) :
    Except String (LedgerBucketWindow α) :=
  match w.buckets.getLast? with
  | some newest =>
    if b.LedgerSeq ≤ newest.LedgerSeq then
      Except.error ("ledger sequence out of order")
    else
      Except.ok ⟨w.capacity, dropToCapacity (w.buckets ++ [b]) w.capacity⟩
  | none => Except.ok ⟨w.capacity, dropToCapacity [b] w.capacity⟩

/-- Concatenation of the retained buckets fee contents, mirroring the loop of
AppendLedgerFees that appends every BucketContent into allFees. -/
def flattenFees : List (List Nat) → List Nat
  | [] => []
  | x :: xs => x ++ flattenFees xs

/-- FeeWindow from feewindow.go: the bucket window plus the cached
distribution.  The RWMutex only serialises access and is not part of the
functional state. -/
structure FeeWindow where
  feesPerLedger : LedgerBucketWindow (List Nat)
  distribution : FeeDistribution
deriving DecidableEq

/-- NewFeeWindow from feewindow.go: empty window of the given retention, zero
distribution. -/
def NewFeeWindow (retentionWindow : Nat) : FeeWindow :=
  ⟨⟨retentionWindow, []⟩, ⟨0, 0, 0, 0, 0, 0, 0, 0, 0, 0, 0, 0, 0, 0, 0, 0⟩⟩

/-- AppendLedgerFees from feewindow.go: append the bucket to the window (an
append error is returned unchanged), flatten all retained bucket contents and
recompute the cached distribution. -/
def FeeWindow.AppendLedgerFees (fw : FeeWindow) (fees : LedgerBucket (List Nat)) :
    Except String FeeWindow :=
  match fw.feesPerLedger.Append fees with
  | Except.error e => Except.error e
  | Except.ok w2 =>
    let allFees := flattenFees (w2.buckets.map LedgerBucket.BucketContent)
    Except.ok ⟨w2, computeFeeDistribution allFees w2.buckets.length⟩

/-- GetFeeDistribution from feewindow.go: return the cached distribution by
value. -/
def FeeWindow.GetFeeDistribution (fw : FeeWindow) : FeeDistribution := fw.distribution

/-! ## Transactions and the IngestFees classification -/

/-- SorobanTransactionMetaExtV1 resource fees; the two xdr.Int64 fields are
modelled as Int. -/
structure SorobanTransactionMetaExtV1 where
  TotalNonRefundableResourceFeeCharged : Int
  TotalRefundableResourceFeeCharged : Int
deriving DecidableEq

/-- The Ext union of SorobanTransactionMeta: V = 1 carries the V1 resource
fees, any other version carries nothing usable. -/
inductive SorobanMetaExt
  | v0
  | v1 (fees : SorobanTransactionMetaExtV1)
deriving DecidableEq

/-- SorobanTransactionMeta as read by IngestFees: only the Ext field is
consulted. -/
structure SorobanTransactionMeta where
  Ext : SorobanMetaExt
deriving DecidableEq

/-- tx.UnsafeMeta as consulted by IngestFees: the version switch looks at V
in {3, 4} with an optional SorobanMeta pointer, everything else falls to the
default case. -/
inductive TransactionMeta
  | v3 (SorobanMeta : Option SorobanTransactionMeta)
  | v4 (SorobanMeta : Option SorobanTransactionMeta)
  | other (v : Int)
deriving DecidableEq

/-- Operation body types; only the three smart-contract-invocation kinds are
distinguished by IngestFees, every other type is collapsed into otherOp. -/
inductive OperationType
  | invokeHostFunction
  | extendFootprintTtl
  | restoreFootprint
  | otherOp (code : Nat)
deriving DecidableEq

/-- The switch on ops[0].Body.Type in IngestFees: true exactly for the three
smart-contract-invocation kinds. -/
def isSorobanOp : OperationType → Bool
  | OperationType.invokeHostFunction => true
  | OperationType.extendFootprintTtl => true
  | OperationType.restoreFootprint => true
  | OperationType.otherOp _ => false

/-- A ledger transaction as consumed by IngestFees: the int64 FeeCharged from
tx.Result.Result, the operation types of tx.Envelope.Operations(), and
tx.UnsafeMeta. -/
structure LedgerTransaction where
  feeCharged : Int
  operations : List OperationType
  unsafeMeta : TransactionMeta
deriving DecidableEq

/-- The version/extension switch of IngestFees (feewindow.go lines 171-184):
V3 or V4 meta with a SorobanMeta pointer whose Ext.V is 1 yields the V1
resource fees; every other shape is skipped. -/
def sorobanMetaOf (tx : LedgerTransaction) : Option SorobanTransactionMetaExtV1 :=
  match tx.unsafeMeta with
  | TransactionMeta.v3 sm =>
    match sm with
    | none => none
    | some smeta =>
      match smeta.Ext with
      | SorobanMetaExt.v1 fees => some fees
      | SorobanMetaExt.v0 => none
  | TransactionMeta.v4 sm =>
    match sm with
    | none => none
    | some smeta =>
      match smeta.Ext with
      | SorobanMetaExt.v1 fees => some fees
      | SorobanMetaExt.v0 => none
  | TransactionMeta.other _ => none

/-- What one transaction contributes in the IngestFees loop: an entry of the
soroban inclusion-fee series, an entry of the classic fee series, or nothing
(the continue paths). -/
inductive TxContribution
  | soroban (inclusionFee : Nat)
  | classic (feePerOp : Nat)
  | skipped
deriving DecidableEq

/-- The body of the transaction loop of IngestFees (feewindow.go lines
161-193): zero operations are skipped; a single operation of a
smart-contract-invocation kind reads the resource fees from the metadata
(skipping the transaction when the version or extension does not match) and
contributes feeCharged - resourceFee in uint64 arithmetic to the inclusion-fee
series; every other transaction contributes feeCharged / opCount (uint64
integer division) to the classic series. -/
def classifyTx (tx : LedgerTransaction) : TxContribution :=
  let feeCharged := u64OfInt64 tx.feeCharged
  match tx.operations with
  | [] => TxContribution.skipped
  | op :: rest =>
    if rest.isEmpty && isSorobanOp op then
      match sorobanMetaOf tx with
      | none => TxContribution.skipped
      | some sorobanFees =>
        let resourceFeeCharged :=
          wrapInt64 (sorobanFees.TotalNonRefundableResourceFeeCharged +
            sorobanFees.TotalRefundableResourceFeeCharged)
        TxContribution.soroban (subU64 feeCharged (u64OfInt64 resourceFeeCharged))
    else
      TxContribution.classic (feeCharged / (op :: rest).length)

/-- Projection of a transaction contribution onto the soroban inclusion-fee
series. -/
def sorobanContribution (tx : LedgerTransaction) : Option Nat :=
  match classifyTx tx with
  | TxContribution.soroban f => some f
  | _ => none

/-- Projection of a transaction contribution onto the classic fee series. -/
def classicContribution (tx : LedgerTransaction) : Option Nat :=
  match classifyTx tx with
  | TxContribution.classic f => some f
  | _ => none

/-- The two fee series accumulated by the IngestFees loop, in reading order:
(soroban inclusion fees, classic fees). -/
def collectFees (txs : List LedgerTransaction) : List Nat × List Nat :=
  (txs.filterMap sorobanContribution, txs.filterMap classicContribution)

/-! ## FeeWindows.IngestFees -/

/-- FeeWindows from feewindow.go: the two windows.  The network passphrase is
consumed only by the external transaction reader and the db handle only by
Rollback; both are modelled as ingestion inputs below. -/
structure FeeWindows where
  SorobanInclusionFeeWindow : FeeWindow
  ClassicFeeWindow : FeeWindow
deriving DecidableEq

/-- Outcomes of the external collaborators of one IngestFees call: whether
creating the ledger transaction reader fails, the successfully read
transactions, the terminal read outcome (none is io.EOF, some e is a non-EOF
read error), the result of db.Rollback, and the ledger sequence and close time
of the ledger-close metadata. -/
structure IngestInput where
  readerCreation : Option String
  txs : List LedgerTransaction
  terminal : Option String
  rollbackResult : Option String
  ledgerSeq : Nat
  closeTime : Int
deriving DecidableEq

/-- errors.Join(err, rollbackErr) with a non-nil first error: the non-nil
errors in order. -/
def goJoin (e : String) (rollback : Option String) : List String :=
  e :: rollback.toList

/-- IngestFees from feewindow.go over the modelled collaborator outcomes:
reader-creation failure, a non-EOF read error and either window append
failure each return errors.Join(err, fw.db.Rollback()); otherwise the classic
bucket and then the soroban bucket are appended, both bearing the ledger
sequence and close time of the metadata. -/
def FeeWindows.IngestFees (fw : FeeWindows) (inp : IngestInput) :
    Except (List String) FeeWindows :=
  match inp.readerCreation with
  | some e => Except.error (goJoin e inp.rollbackResult)
  | none =>
    match inp.terminal with
    | some e => Except.error (goJoin e inp.rollbackResult)
    | none =>
      let fees := collectFees inp.txs
      match fw.ClassicFeeWindow.AppendLedgerFees ⟨inp.ledgerSeq, inp.closeTime, fees.2⟩ with
      | Except.error e => Except.error (goJoin e inp.rollbackResult)
      | Except.ok cw =>
        match fw.SorobanInclusionFeeWindow.AppendLedgerFees
            ⟨inp.ledgerSeq, inp.closeTime, fees.1⟩ with
        | Except.error e => Except.error (goJoin e inp.rollbackResult)
        | Except.ok sw => Except.ok ⟨sw, cw⟩

/-! ## toSnakeCase and the NewJSONRPCHandler wiring -/

/-- toSnakeCase from the handler wiring source: for each uppercase rune an
underscore is inserted before it, then the whole result is lowercased. -/
def toSnakeCase (s : String) : String :=
  let chars := s.data.foldl (fun acc c => if c.isUpper then acc ++ ['_', c] else acc ++ [c]) []
  String.mk (chars.map Char.toLower)

/-- The configuration fields of config.Config consumed by NewJSONRPCHandler:
queue limits as Nat, durations (time.Duration, an int64 nanosecond count) as
Int. -/
structure Config where
  RequestBacklogGlobalQueueLimit : Nat
  RequestExecutionWarningThreshold : Int
  MaxRequestExecutionDuration : Int
  RequestBacklogGetHealthQueueLimit : Nat
  RequestBacklogGetEventsQueueLimit : Nat
  RequestBacklogGetNetworkQueueLimit : Nat
  RequestBacklogGetVersionInfoQueueLimit : Nat
  RequestBacklogGetLatestLedgerQueueLimit : Nat
  RequestBacklogGetLedgersQueueLimit : Nat
  RequestBacklogGetLedgerEntriesQueueLimit : Nat
  RequestBacklogGetTransactionQueueLimit : Nat
  RequestBacklogGetTransactionsQueueLimit : Nat
  RequestBacklogSendTransactionQueueLimit : Nat
  RequestBacklogSimulateTransactionQueueLimit : Nat
  RequestBacklogGetFeeStatsTransactionQueueLimit : Nat
  MaxGetHealthExecutionDuration : Int
  MaxGetEventsExecutionDuration : Int
  MaxGetNetworkExecutionDuration : Int
  MaxGetVersionInfoExecutionDuration : Int
  MaxGetLatestLedgerExecutionDuration : Int
  MaxGetLedgersExecutionDuration : Int
  MaxGetLedgerEntriesExecutionDuration : Int
  MaxGetTransactionExecutionDuration : Int
  MaxGetTransactionsExecutionDuration : Int
  MaxSendTransactionExecutionDuration : Int
  MaxSimulateTransactionExecutionDuration : Int
  MaxGetFeeStatsExecutionDuration : Int
deriving DecidableEq

/-- Modelled from the spec: the external protocol method-name constants of the
protocol package (not among the provided sources), kept abstract. -/
structure ProtocolNames where
  GetHealthMethodName : String
  GetEventsMethodName : String
  GetNetworkMethodName : String
  GetVersionInfoMethodName : String
  GetLatestLedgerMethodName : String
  GetLedgersMethodName : String
  GetLedgerEntriesMethodName : String
  GetTransactionMethodName : String
  GetTransactionsMethodName : String
  SendTransactionMethodName : String
  SimulateTransactionMethodName : String
  GetFeeStatsMethodName : String
deriving DecidableEq

/-- One entry of the anonymous handlers slice of NewJSONRPCHandler: the
method name, the precomputed snake-case long name, the backlog queue limit and
the hard execution-duration limit.  The underlying business handler itself is
out of scope. -/
structure HandlerEntry where
  methodName : String
  longName : String
  queueLimit : Nat
  requestDurationLimit : Int
deriving DecidableEq

/-- The handlers slice of NewJSONRPCHandler, entry by entry in source order,
with longName = toSnakeCase(methodName) and the per-method configuration
fields exactly as in the source. -/
def handlersList (cfg : Config) (p : ProtocolNames) : List HandlerEntry :=
  [ ⟨p.GetHealthMethodName, toSnakeCase p.GetHealthMethodName,
      cfg.RequestBacklogGetHealthQueueLimit, cfg.MaxGetHealthExecutionDuration⟩,
    ⟨p.GetEventsMethodName, toSnakeCase p.GetEventsMethodName,
      cfg.RequestBacklogGetEventsQueueLimit, cfg.MaxGetEventsExecutionDuration⟩,
    ⟨p.GetNetworkMethodName, toSnakeCase p.GetNetworkMethodName,
      cfg.RequestBacklogGetNetworkQueueLimit, cfg.MaxGetNetworkExecutionDuration⟩,
    ⟨p.GetVersionInfoMethodName, toSnakeCase p.GetVersionInfoMethodName,
      cfg.RequestBacklogGetVersionInfoQueueLimit, cfg.MaxGetVersionInfoExecutionDuration⟩,
    ⟨p.GetLatestLedgerMethodName, toSnakeCase p.GetLatestLedgerMethodName,
      cfg.RequestBacklogGetLatestLedgerQueueLimit, cfg.MaxGetLatestLedgerExecutionDuration⟩,
    ⟨p.GetLedgersMethodName, toSnakeCase p.GetLedgersMethodName,
      cfg.RequestBacklogGetLedgersQueueLimit, cfg.MaxGetLedgersExecutionDuration⟩,
    ⟨p.GetLedgerEntriesMethodName, toSnakeCase p.GetLedgerEntriesMethodName,
      cfg.RequestBacklogGetLedgerEntriesQueueLimit, cfg.MaxGetLedgerEntriesExecutionDuration⟩,
    ⟨p.GetTransactionMethodName, toSnakeCase p.GetTransactionMethodName,
      cfg.RequestBacklogGetTransactionQueueLimit, cfg.MaxGetTransactionExecutionDuration⟩,
    ⟨p.GetTransactionsMethodName, toSnakeCase p.GetTransactionsMethodName,
      cfg.RequestBacklogGetTransactionsQueueLimit, cfg.MaxGetTransactionsExecutionDuration⟩,
    ⟨p.SendTransactionMethodName, toSnakeCase p.SendTransactionMethodName,
      cfg.RequestBacklogSendTransactionQueueLimit, cfg.MaxSendTransactionExecutionDuration⟩,
    ⟨p.SimulateTransactionMethodName, toSnakeCase p.SimulateTransactionMethodName,
      cfg.RequestBacklogSimulateTransactionQueueLimit, cfg.MaxSimulateTransactionExecutionDuration⟩,
    ⟨p.GetFeeStatsMethodName, toSnakeCase p.GetFeeStatsMethodName,
      cfg.RequestBacklogGetFeeStatsTransactionQueueLimit, cfg.MaxGetFeeStatsExecutionDuration⟩ ]

/-- The warning-threshold denominator constant of the wiring source. -/
def warningThresholdDenominator : Int := 3

/-- The per-method artifacts produced by the loop body of NewJSONRPCHandler:
the three metric names and the two duration thresholds handed to the duration
limiter. -/
structure WiredMethod where
  methodName : String
  longName : String
  queueLimit : Nat
  queueLimiterGaugeName : String
  durationWarnCounterName : String
  durationLimitCounterName : String
  requestDurationWarn : Int
  requestDurationLimit : Int
deriving DecidableEq

/-- The loop body of NewJSONRPCHandler for one handlers entry: metric names
derived from longName, and the warning threshold set to the duration limit
divided by warningThresholdDenominator (Go int64 division truncates toward
zero, hence Int.tdiv). -/
def wireEntry (e : HandlerEntry) : WiredMethod :=
  { methodName := e.methodName
    longName := e.longName
    queueLimit := e.queueLimit
    queueLimiterGaugeName := e.longName ++ "_inflight_requests"
    durationWarnCounterName := e.longName ++ "_execution_threshold_warning"
    durationLimitCounterName := e.longName ++ "_execution_threshold_limit"
    requestDurationWarn := Int.tdiv e.requestDurationLimit warningThresholdDenominator
    requestDurationLimit := e.requestDurationLimit }

/-- The full per-method wiring of NewJSONRPCHandler. -/
def newJSONRPCHandlerWiring (cfg : Config) (p : ProtocolNames) : List WiredMethod :=
  (handlersList cfg p).map wireEntry

/-! ## Trace semantics of the composed request path -/

/-- The outcome a caller sees for one request: the method result, or the
distinct backlog-full rejection naming the saturated resource. -/
inductive RpcResult
  | ok (method : String)
  | backlogFull (resource : String)
deriving DecidableEq

/-- Observable events of one request walking through the wiring, outermost
first. -/
inductive TraceEvent
  | durationClockStart (resource : String)
  | backlogAdmitted (resource : String)
  | backlogRejected (resource : String)
  | requestLogged (method : String)
  | handlerInvoked (method : String)
deriving DecidableEq

/-- Modelled from the spec: the BacklogQueueLimiter of the network package
(not among the provided sources) on one request, given its in-flight count at
arrival: an atomic check-and-increment that invokes the wrapped handler when
below the limit and otherwise rejects immediately with the distinct
backlog-full error. -/
def runBacklogGate (resource : String) (limit current : Nat)
    (inner : RpcResult × List TraceEvent) : RpcResult × List TraceEvent :=
  if current < limit then (inner.1, TraceEvent.backlogAdmitted resource :: inner.2)
  else (RpcResult.backlogFull resource, [TraceEvent.backlogRejected resource])

/-- Modelled from the spec: the request-duration limiter of the network
package (not among the provided sources) starts its clock on entry and then
races the wrapped handler; timing outcomes are abstracted, only the clock
start is observable here. -/
def runDurationGov (resource : String) (inner : RpcResult × List TraceEvent) :
    RpcResult × List TraceEvent :=
  (inner.1, TraceEvent.durationClockStart resource :: inner.2)

/-- decorateHandlers from the wiring source: the logging and metrics wrapper
installed on each bridge entry, a pass-through for the result. -/
def decorateOne (method : String) (inner : RpcResult × List TraceEvent) :
    RpcResult × List TraceEvent :=
  (inner.1, TraceEvent.requestLogged method :: inner.2)

/-- The wrapped business handler of one method. -/
def methodBase (method : String) : RpcResult × List TraceEvent :=
  (RpcResult.ok method, [TraceEvent.handlerInvoked method])

/-- One request for method e travelling the composition built by
NewJSONRPCHandler: the global duration limiter wraps the global backlog gate,
which wraps the bridge whose decorated entry is the per-method duration
limiter wrapping the per-method backlog gate wrapping the handler.  gcur and
mcur are the in-flight counts of the global and the per-method gate at
arrival. -/
def serveRequest (cfg : Config) (e : HandlerEntry) (gcur mcur : Nat) :
    RpcResult × List TraceEvent :=
  runDurationGov ("global")
    (runBacklogGate ("global") cfg.RequestBacklogGlobalQueueLimit gcur
      (decorateOne e.methodName
        (runDurationGov e.methodName
          (runBacklogGate e.methodName e.queueLimit mcur
            (methodBase e.methodName)))))

/-! ## Concurrent backlog-limiter transition system -/

/-- Phase of one request submitted to a backlog limiter: not yet arrived,
admitted and in flight, rejected with the distinct backlog-full error, or
completed after admission. -/
inductive ReqPhase
  | pending
  | active
  | rejectedBacklogFull
  | finished
deriving DecidableEq

/-- Number of requests currently admitted (in flight). -/
def countActive (l : List ReqPhase) : Nat :=
  l.countP (fun r => decide (r = ReqPhase.active))

/-- State of one backlog limiter instance together with its client requests:
the configured limit, the in-flight counter, and each request phase. -/
structure LimiterSys where
  limit : Nat
  current : Nat
  reqs : List ReqPhase
deriving DecidableEq

/-- Modelled from the spec: the interleaved steps of the BacklogQueueLimiter
(network package, not among the provided sources).  Admission atomically
checks the counter against the limit and increments it; a request arriving at
or over the limit is rejected immediately with the backlog-full error and the
counter untouched; a completing admitted request decrements the counter
exactly once regardless of outcome. -/
inductive LimiterStep : LimiterSys → LimiterSys → Prop
  | acquire (s : LimiterSys) (i : Nat)
      (hp : s.reqs.getD i ReqPhase.finished = ReqPhase.pending)
      (hroom : s.current < s.limit) :
      LimiterStep s ⟨s.limit, s.current + 1, s.reqs.set i ReqPhase.active⟩
  | reject (s : LimiterSys) (i : Nat)
      (hp : s.reqs.getD i ReqPhase.finished = ReqPhase.pending)
      (hfull : s.limit ≤ s.current) :
      LimiterStep s ⟨s.limit, s.current, s.reqs.set i ReqPhase.rejectedBacklogFull⟩
  | finish (s : LimiterSys) (i : Nat)
      (ha : s.reqs.getD i ReqPhase.finished = ReqPhase.active) :
      LimiterStep s ⟨s.limit, s.current - 1, s.reqs.set i ReqPhase.finished⟩

/-- Initial state: N requests about to be submitted to a fresh limiter with
the given limit. -/
def initSys (N L : Nat) : LimiterSys := ⟨L, 0, List.replicate N ReqPhase.pending⟩

/-- States reachable by any interleaving of the N requests. -/
def ReachableSys (N L : Nat) (s : LimiterSys) : Prop :=
  Relation.ReflTransGen LimiterStep (initSys N L) s

/-! ## Concrete inputs used by witnesses and counterexamples -/

/-- A single-operation contract-invocation transaction: feeCharged 1000,
resource fees 200 + 100, V3 metadata with extension V1. -/
def c3txSoroban : LedgerTransaction :=
  ⟨1000, [OperationType.invokeHostFunction],
    TransactionMeta.v3 (some ⟨SorobanMetaExt.v1 ⟨200, 100⟩⟩)⟩

/-- A two-operation transaction with feeCharged 200. -/
def c3txClassic : LedgerTransaction :=
  ⟨200, [OperationType.otherOp 1, OperationType.otherOp 1], TransactionMeta.other 0⟩

/-- A single-operation contract-invocation transaction whose resource fee 300
exceeds its feeCharged 100. -/
def c10tx : LedgerTransaction :=
  ⟨100, [OperationType.invokeHostFunction],
    TransactionMeta.v4 (some ⟨SorobanMetaExt.v1 ⟨200, 100⟩⟩)⟩

/-- A fee window of capacity 5 retaining one bucket with no fees. -/
def c9win : FeeWindow :=
  ⟨⟨5, [⟨1, 0, []⟩]⟩, ⟨0, 0, 0, 0, 0, 0, 0, 0, 0, 0, 0, 0, 0, 0, 0, 0⟩⟩

/-- A second bucket with no fees. -/
def c9bucket : LedgerBucket (List Nat) := ⟨2, 0, []⟩

/-- The window state after appending c9bucket to c9win: two retained buckets,
zero distribution. -/
def c9res : FeeWindow :=
  ⟨⟨5, [⟨1, 0, []⟩, ⟨2, 0, []⟩]⟩, ⟨0, 0, 0, 0, 0, 0, 0, 0, 0, 0, 0, 0, 0, 0, 0, 0⟩⟩

/-- A configuration with global queue limit 5 and every other field zero. -/
def c1cfg : Config :=
  ⟨5, 0, 0, 0, 0, 0, 0, 0, 0, 0, 0, 0, 0, 0, 0, 0, 0, 0, 0, 0, 0, 0, 0, 0, 0, 0, 0⟩

/-- A handlers entry for getHealth with queue limit 0. -/
def c1entry : HandlerEntry :=
  ⟨"getHealth", toSnakeCase ("getHealth"), 0, 0⟩

/-- Concrete protocol names (camelCase, as on the JSON-RPC wire). -/
def pNames0 : ProtocolNames :=
  ⟨"getHealth", "getEvents", "getNetwork", "getVersionInfo", "getLatestLedger",
    "getLedgers", "getLedgerEntries", "getTransaction", "getTransactions",
    "sendTransaction", "simulateTransaction", "getFeeStats"⟩

/-- A configuration whose per-method duration limits are 30 nanoseconds for
getHealth and zero elsewhere, with global queue limit 1. -/
def c6cfg : Config :=
  ⟨1, 0, 0, 1, 1, 1, 1, 1, 1, 1, 1, 1, 1, 1, 1, 30, 0, 0, 0, 0, 0, 0, 0, 0, 0, 0, 0⟩

/-- Two empty fee windows of capacity 5. -/
def c8fw : FeeWindows := ⟨NewFeeWindow 5, NewFeeWindow 5⟩

/-- An ingestion whose reader creation fails and whose rollback also reports
an error. -/
def c8inp : IngestInput :=
  ⟨some ("reader creation failed"), [], none, some ("rollback failed"), 7, 0⟩

/-- A handlers entry used by witnesses of the wiring claims. -/
def c6entry : HandlerEntry := ⟨"getHealth", toSnakeCase ("getHealth"), 1, 30⟩

/-! ## Helper lemmas -/

/-- The uint64 subtraction feeCharged - uint64(resourceSum) performed by
IngestFees equals the mathematical difference modulo 2 to the 64, regardless
of int64 overflow of the resource-fee sum. -/
theorem subU64_u64 (f S : Int) :
    subU64 (u64OfInt64 f) (u64OfInt64 (wrapInt64 S)) = ((f - S) % (2 ^ 64 : Int)).toNat := by
  simp only [subU64, u64OfInt64, wrapInt64]
  have h64 : ((2 : Int) ^ 64) = 18446744073709551616 := by norm_num
  have h63 : ((2 : Int) ^ 63) = 9223372036854775808 := by norm_num
  rw [h64, h63]
  omega

/-- uint64 conversion is the identity on values in the common range. -/
theorem u64OfInt64_of_nonneg (f : Int) (h0 : 0 ≤ f) (h1 : f < 2 ^ 64) :
    u64OfInt64 f = f.toNat := by
  have h64 : ((2 : Int) ^ 64) = 18446744073709551616 := by norm_num
  simp only [u64OfInt64]
  rw [h64] at h1 ⊢
  omega

/-! ## Claim theorems -/

/-- C4: for every non-empty fee sequence and every percentile p among
10,20,...,90,95,99, computeFeeDistribution returns as Percentile(p) the
element at 1-based index ceiling(p * count / 100) of the ascending-sorted
fees (nearest rank, no interpolation), that index is always within bounds,
and for fees [10,10,10,20,30] the p50 index is 3 giving 10, with min 10 and
max 30. -/
theorem c4_nearest_rank_percentiles :
    (∀ (fees : List Nat) (n : Nat), fees ≠ [] →
      (∀ p ∈ [10, 20, 30, 40, 50, 60, 70, 80, 90, 95, 99],
        1 ≤ pctIndex p fees.length ∧ pctIndex p fees.length ≤ fees.length ∧
        pctIndex p fees.length - 1 < fees.length) ∧
      ((computeFeeDistribution fees n).P10 =
          (List.insertionSort (· ≤ ·) fees).getD (pctIndex 10 fees.length - 1) 0 ∧
       (computeFeeDistribution fees n).P20 =
          (List.insertionSort (· ≤ ·) fees).getD (pctIndex 20 fees.length - 1) 0 ∧
       (computeFeeDistribution fees n).P30 =
          (List.insertionSort (· ≤ ·) fees).getD (pctIndex 30 fees.length - 1) 0 ∧
       (computeFeeDistribution fees n).P40 =
          (List.insertionSort (· ≤ ·) fees).getD (pctIndex 40 fees.length - 1) 0 ∧
       (computeFeeDistribution fees n).P50 =
          (List.insertionSort (· ≤ ·) fees).getD (pctIndex 50 fees.length - 1) 0 ∧
       (computeFeeDistribution fees n).P60 =
          (List.insertionSort (· ≤ ·) fees).getD (pctIndex 60 fees.length - 1) 0 ∧
       (computeFeeDistribution fees n).P70 =
          (List.insertionSort (· ≤ ·) fees).getD (pctIndex 70 fees.length - 1) 0 ∧
       (computeFeeDistribution fees n).P80 =
          (List.insertionSort (· ≤ ·) fees).getD (pctIndex 80 fees.length - 1) 0 ∧
       (computeFeeDistribution fees n).P90 =
          (List.insertionSort (· ≤ ·) fees).getD (pctIndex 90 fees.length - 1) 0 ∧
       (computeFeeDistribution fees n).P95 =
          (List.insertionSort (· ≤ ·) fees).getD (pctIndex 95 fees.length - 1) 0 ∧
       (computeFeeDistribution fees n).P99 =
          (List.insertionSort (· ≤ ·) fees).getD (pctIndex 99 fees.length - 1) 0)) ∧
    pctIndex 50 5 = 3 ∧
    (computeFeeDistribution [10, 10, 10, 20, 30] 1).P50 = 10 ∧
    (computeFeeDistribution [10, 10, 10, 20, 30] 1).Min = 10 ∧
    (computeFeeDistribution [10, 10, 10, 20, 30] 1).Max = 30 := by
  refine ⟨?_, by decide, by decide, by decide, by decide⟩
  intro fees n h
  have hc : 1 ≤ fees.length := List.length_pos.mpr h
  have hlen0 : ¬ fees.length = 0 := by omega
  have hsl : (List.insertionSort (· ≤ ·) fees).length = fees.length :=
    (List.perm_insertionSort _ fees).length_eq
  constructor
  · intro p hp
    fin_cases hp <;> simp only [pctIndex] <;> omega
  · simp [computeFeeDistribution, percentileOf, hsl, h, hlen0]

/-- C4 witness: the theorem applied to fees [10,10,10,20,30]. -/
theorem c4_witness :
    ([10, 10, 10, 20, 30] ≠ ([] : List Nat)) ∧
    ((∀ p ∈ [10, 20, 30, 40, 50, 60, 70, 80, 90, 95, 99],
        1 ≤ pctIndex p ([10, 10, 10, 20, 30] : List Nat).length ∧
        pctIndex p ([10, 10, 10, 20, 30] : List Nat).length ≤
          ([10, 10, 10, 20, 30] : List Nat).length ∧
        pctIndex p ([10, 10, 10, 20, 30] : List Nat).length - 1 <
          ([10, 10, 10, 20, 30] : List Nat).length) ∧
      ((computeFeeDistribution [10, 10, 10, 20, 30] 1).P10 =
          (List.insertionSort (· ≤ ·) [10, 10, 10, 20, 30]).getD
            (pctIndex 10 ([10, 10, 10, 20, 30] : List Nat).length - 1) 0 ∧
       (computeFeeDistribution [10, 10, 10, 20, 30] 1).P20 =
          (List.insertionSort (· ≤ ·) [10, 10, 10, 20, 30]).getD
            (pctIndex 20 ([10, 10, 10, 20, 30] : List Nat).length - 1) 0 ∧
       (computeFeeDistribution [10, 10, 10, 20, 30] 1).P30 =
          (List.insertionSort (· ≤ ·) [10, 10, 10, 20, 30]).getD
            (pctIndex 30 ([10, 10, 10, 20, 30] : List Nat).length - 1) 0 ∧
       (computeFeeDistribution [10, 10, 10, 20, 30] 1).P40 =
          (List.insertionSort (· ≤ ·) [10, 10, 10, 20, 30]).getD
            (pctIndex 40 ([10, 10, 10, 20, 30] : List Nat).length - 1) 0 ∧
       (computeFeeDistribution [10, 10, 10, 20, 30] 1).P50 =
          (List.insertionSort (· ≤ ·) [10, 10, 10, 20, 30]).getD
            (pctIndex 50 ([10, 10, 10, 20, 30] : List Nat).length - 1) 0 ∧
       (computeFeeDistribution [10, 10, 10, 20, 30] 1).P60 =
          (List.insertionSort (· ≤ ·) [10, 10, 10, 20, 30]).getD
            (pctIndex 60 ([10, 10, 10, 20, 30] : List Nat).length - 1) 0 ∧
       (computeFeeDistribution [10, 10, 10, 20, 30] 1).P70 =
          (List.insertionSort (· ≤ ·) [10, 10, 10, 20, 30]).getD
            (pctIndex 70 ([10, 10, 10, 20, 30] : List Nat).length - 1) 0 ∧
       (computeFeeDistribution [10, 10, 10, 20, 30] 1).P80 =
          (List.insertionSort (· ≤ ·) [10, 10, 10, 20, 30]).getD
            (pctIndex 80 ([10, 10, 10, 20, 30] : List Nat).length - 1) 0 ∧
       (computeFeeDistribution [10, 10, 10, 20, 30] 1).P90 =
          (List.insertionSort (· ≤ ·) [10, 10, 10, 20, 30]).getD
            (pctIndex 90 ([10, 10, 10, 20, 30] : List Nat).length - 1) 0 ∧
       (computeFeeDistribution [10, 10, 10, 20, 30] 1).P95 =
          (List.insertionSort (· ≤ ·) [10, 10, 10, 20, 30]).getD
            (pctIndex 95 ([10, 10, 10, 20, 30] : List Nat).length - 1) 0 ∧
       (computeFeeDistribution [10, 10, 10, 20, 30] 1).P99 =
          (List.insertionSort (· ≤ ·) [10, 10, 10, 20, 30]).getD
            (pctIndex 99 ([10, 10, 10, 20, 30] : List Nat).length - 1) 0)) :=
  ⟨by decide, c4_nearest_rank_percentiles.1 [10, 10, 10, 20, 30] 1 (by decide)⟩

/-- C6: for every per-method handler wired in NewJSONRPCHandler, the warning
threshold passed to the duration limiter equals that method's configured hard
execution-duration limit divided by 3, with Go integer (truncating) duration
division; the hard limits are exactly the twelve configured per-method
durations in source order. -/
theorem c6_warning_threshold_third :
    (∀ (cfg : Config) (p : ProtocolNames), ∀ w ∈ newJSONRPCHandlerWiring cfg p,
      w.requestDurationWarn = Int.tdiv w.requestDurationLimit 3) ∧
    (∀ (cfg : Config) (p : ProtocolNames),
      (newJSONRPCHandlerWiring cfg p).map (fun w => w.requestDurationLimit) =
        [cfg.MaxGetHealthExecutionDuration, cfg.MaxGetEventsExecutionDuration,
         cfg.MaxGetNetworkExecutionDuration, cfg.MaxGetVersionInfoExecutionDuration,
         cfg.MaxGetLatestLedgerExecutionDuration, cfg.MaxGetLedgersExecutionDuration,
         cfg.MaxGetLedgerEntriesExecutionDuration, cfg.MaxGetTransactionExecutionDuration,
         cfg.MaxGetTransactionsExecutionDuration, cfg.MaxSendTransactionExecutionDuration,
         cfg.MaxSimulateTransactionExecutionDuration, cfg.MaxGetFeeStatsExecutionDuration]) := by
  constructor
  · intro cfg p w hw
    simp only [newJSONRPCHandlerWiring, List.mem_map] at hw
    obtain ⟨e, _, rfl⟩ := hw
    rfl
  · intro cfg p
    rfl

/-- C6 witness: the getHealth entry of a configuration whose getHealth
duration limit is 30 satisfies warn = 30 / 3 = 10. -/
theorem c6_witness :
    (wireEntry c6entry ∈ newJSONRPCHandlerWiring c6cfg pNames0) ∧
    (wireEntry c6entry).requestDurationWarn =
      Int.tdiv (wireEntry c6entry).requestDurationLimit 3 ∧
    (wireEntry c6entry).requestDurationWarn = 10 :=
  ⟨by decide,
   c6_warning_threshold_third.1 c6cfg pNames0 (wireEntry c6entry) (by decide),
   by decide⟩

/-- C7 (amended): for every method wired in NewJSONRPCHandler, the per-method
metric names are the lowercase-underscore conversion of the method's external
protocol name suffixed with _inflight_requests, _execution_threshold_warning
and _execution_threshold_limit, where the conversion inserts an underscore
before each uppercase rune and lowercases the result, mapping getHealth to
get_health (a leading-uppercase name such as GetHealth maps to _get_health). -/
theorem c7_metric_names :
    (∀ (cfg : Config) (p : ProtocolNames), ∀ w ∈ newJSONRPCHandlerWiring cfg p,
      w.queueLimiterGaugeName = toSnakeCase w.methodName ++ "_inflight_requests" ∧
      w.durationWarnCounterName = toSnakeCase w.methodName ++ "_execution_threshold_warning" ∧
      w.durationLimitCounterName = toSnakeCase w.methodName ++ "_execution_threshold_limit") ∧
    toSnakeCase ("getHealth") = "get_health" := by
  constructor
  · intro cfg p w hw
    simp only [newJSONRPCHandlerWiring, handlersList, List.map_cons, List.map_nil,
      List.mem_cons, List.not_mem_nil, or_false] at hw
    rcases hw with rfl | rfl | rfl | rfl | rfl | rfl | rfl | rfl | rfl | rfl | rfl | rfl <;>
      exact ⟨rfl, rfl, rfl⟩
  · decide

/-- C7 counterexample: the conversion implemented by toSnakeCase maps the
string GetHealth to _get_health, not to get_health as the claim states, since
an underscore is inserted before the leading uppercase rune as well. -/
theorem c7_counterexample :
    toSnakeCase ("GetHealth") = "_get_health" ∧ toSnakeCase ("GetHealth") ≠ "get_health" := by
  constructor <;> decide

/-- C7 witness: the getHealth entry of a concrete wiring carries metric names
get_health_inflight_requests, get_health_execution_threshold_warning and
get_health_execution_threshold_limit. -/
theorem c7_witness :
    (wireEntry c6entry ∈ newJSONRPCHandlerWiring c6cfg pNames0) ∧
    ((wireEntry c6entry).queueLimiterGaugeName =
        toSnakeCase (wireEntry c6entry).methodName ++ "_inflight_requests" ∧
     (wireEntry c6entry).durationWarnCounterName =
        toSnakeCase (wireEntry c6entry).methodName ++ "_execution_threshold_warning" ∧
     (wireEntry c6entry).durationLimitCounterName =
        toSnakeCase (wireEntry c6entry).methodName ++ "_execution_threshold_limit") ∧
    (wireEntry c6entry).queueLimiterGaugeName = "get_health_inflight_requests" :=
  ⟨by decide,
   c7_metric_names.1 c6cfg pNames0 (wireEntry c6entry) (by decide),
   by decide⟩

/-- C1 (amended): in the composition built by NewJSONRPCHandler the wrapping
order from outermost to innermost is global duration limiter, global backlog
limiter, then inside the bridge the per-method duration limiter, the
per-method backlog limiter and the method handler; consequently a request
rejected by the per-method backlog gate never reaches the method handler, but
its per-method duration clock has already started, because the per-method
duration limiter wraps the backlog gate. -/
theorem c1_wrapping_order :
    ∀ (cfg : Config) (e : HandlerEntry) (gcur mcur : Nat),
      gcur < cfg.RequestBacklogGlobalQueueLimit →
      ((mcur < e.queueLimit →
        serveRequest cfg e gcur mcur =
          (RpcResult.ok e.methodName,
           [TraceEvent.durationClockStart ("global"), TraceEvent.backlogAdmitted ("global"),
            TraceEvent.requestLogged e.methodName, TraceEvent.durationClockStart e.methodName,
            TraceEvent.backlogAdmitted e.methodName, TraceEvent.handlerInvoked e.methodName])) ∧
       (e.queueLimit ≤ mcur →
        serveRequest cfg e gcur mcur =
          (RpcResult.backlogFull e.methodName,
           [TraceEvent.durationClockStart ("global"), TraceEvent.backlogAdmitted ("global"),
            TraceEvent.requestLogged e.methodName, TraceEvent.durationClockStart e.methodName,
            TraceEvent.backlogRejected e.methodName]) ∧
        TraceEvent.handlerInvoked e.methodName ∉ (serveRequest cfg e gcur mcur).2 ∧
        TraceEvent.durationClockStart e.methodName ∈ (serveRequest cfg e gcur mcur).2)) := by
  intro cfg e gcur mcur hg
  constructor
  · intro hm
    simp [serveRequest, runDurationGov, runBacklogGate, decorateOne, methodBase, hg, hm]
  · intro hm
    have hnot : ¬ mcur < e.queueLimit := by omega
    refine ⟨?_, ?_, ?_⟩ <;>
      simp [serveRequest, runDurationGov, runBacklogGate, decorateOne, methodBase, hg, hnot]

/-- C1 counterexample: with a per-method queue limit of 0 the request is
rejected by the per-method backlog gate, yet its per-method duration clock
has started, refuting the claim that a rejected-for-backlog request never
starts that method's duration clock. -/
theorem c1_counterexample :
    (serveRequest c1cfg c1entry 0 0).1 = RpcResult.backlogFull ("getHealth") ∧
    TraceEvent.durationClockStart ("getHealth") ∈ (serveRequest c1cfg c1entry 0 0).2 := by
  constructor <;> decide

/-- C1 witness: the amended theorem applied to a concrete configuration with
global queue limit 5, a getHealth entry with queue limit 0 and both gates
idle. -/
theorem c1_witness :
    (0 < c1cfg.RequestBacklogGlobalQueueLimit) ∧
    (((0 : Nat) < c1entry.queueLimit →
      serveRequest c1cfg c1entry 0 0 =
        (RpcResult.ok c1entry.methodName,
         [TraceEvent.durationClockStart ("global"), TraceEvent.backlogAdmitted ("global"),
          TraceEvent.requestLogged c1entry.methodName,
          TraceEvent.durationClockStart c1entry.methodName,
          TraceEvent.backlogAdmitted c1entry.methodName,
          TraceEvent.handlerInvoked c1entry.methodName])) ∧
     (c1entry.queueLimit ≤ 0 →
      serveRequest c1cfg c1entry 0 0 =
        (RpcResult.backlogFull c1entry.methodName,
         [TraceEvent.durationClockStart ("global"), TraceEvent.backlogAdmitted ("global"),
          TraceEvent.requestLogged c1entry.methodName,
          TraceEvent.durationClockStart c1entry.methodName,
          TraceEvent.backlogRejected c1entry.methodName]) ∧
      TraceEvent.handlerInvoked c1entry.methodName ∉ (serveRequest c1cfg c1entry 0 0).2 ∧
      TraceEvent.durationClockStart c1entry.methodName ∈ (serveRequest c1cfg c1entry 0 0).2)) :=
  ⟨by decide, c1_wrapping_order c1cfg c1entry 0 0 (by decide)⟩

/-- uint64 conversion is the identity on values below 2 to the 63. -/
theorem u64OfInt64_small (f : Int) (h0 : 0 ≤ f) (h1 : f < 2 ^ 63) : u64OfInt64 f = f.toNat := by
  apply u64OfInt64_of_nonneg f h0
  have h2 : ((2 : Int) ^ 63) ≤ 2 ^ 64 := by norm_num
  omega

/-- C3: per-transaction fee classification of IngestFees.  A transaction with
exactly one operation of a smart-contract-invocation kind whose metadata
version and extension match contributes feeCharged - resourceFeeCharged to
the inclusion-fee series; a matching-shape transaction whose metadata does
not match is silently skipped; every other transaction with at least one
operation contributes feeCharged / opCount (integer division) to the classic
series; a zero-operation transaction is skipped; and the ledger with the
1000-fee single-op invocation plus the 200-fee two-op transaction yields
inclusion series [700] and classic series [100]. -/
theorem c3_fee_classification :
    (∀ (tx : LedgerTransaction) (op : OperationType) (m : SorobanTransactionMetaExtV1),
      tx.operations = [op] → isSorobanOp op = true → sorobanMetaOf tx = some m →
      0 ≤ m.TotalNonRefundableResourceFeeCharged →
      0 ≤ m.TotalRefundableResourceFeeCharged →
      m.TotalNonRefundableResourceFeeCharged + m.TotalRefundableResourceFeeCharged ≤
        tx.feeCharged →
      tx.feeCharged < 2 ^ 63 →
      classifyTx tx = TxContribution.soroban
        ((tx.feeCharged - (m.TotalNonRefundableResourceFeeCharged +
          m.TotalRefundableResourceFeeCharged)).toNat)) ∧
    (∀ (tx : LedgerTransaction) (op : OperationType),
      tx.operations = [op] → isSorobanOp op = true → sorobanMetaOf tx = none →
      classifyTx tx = TxContribution.skipped) ∧
    (∀ tx : LedgerTransaction,
      tx.operations ≠ [] → (∀ op, tx.operations = [op] → isSorobanOp op = false) →
      0 ≤ tx.feeCharged → tx.feeCharged < 2 ^ 63 →
      classifyTx tx = TxContribution.classic (tx.feeCharged.toNat / tx.operations.length)) ∧
    (∀ tx : LedgerTransaction, tx.operations = [] → classifyTx tx = TxContribution.skipped) ∧
    collectFees [c3txSoroban, c3txClassic] = ([700], [100]) := by
  refine ⟨?_, ?_, ?_, ?_, by decide⟩
  · intro tx op m hops hsop hmeta hnr hr hle hlt
    have h63 : ((2 : Int) ^ 63) = 9223372036854775808 := by norm_num
    have h64 : ((2 : Int) ^ 64) = 18446744073709551616 := by norm_num
    simp only [classifyTx, hops, List.isEmpty_nil, hsop, Bool.and_self, if_true, hmeta]
    rw [subU64_u64]
    have hmod : (tx.feeCharged - (m.TotalNonRefundableResourceFeeCharged +
        m.TotalRefundableResourceFeeCharged)) % (2 ^ 64 : Int) =
        tx.feeCharged - (m.TotalNonRefundableResourceFeeCharged +
        m.TotalRefundableResourceFeeCharged) := by
      apply Int.emod_eq_of_lt (by omega)
      omega
    rw [hmod]
  · intro tx op hops hsop hmeta
    simp only [classifyTx, hops, List.isEmpty_nil, hsop, Bool.and_self, if_true, hmeta]
  · intro tx hne hnotsingle h0 hlt
    cases hops : tx.operations with
    | nil => exact absurd hops hne
    | cons op rest =>
      cases rest with
      | nil =>
        have hf : isSorobanOp op = false := hnotsingle op hops
        simp [classifyTx, hops, hf, u64OfInt64_small tx.feeCharged h0 hlt]
      | cons r rs =>
        simp [classifyTx, hops, u64OfInt64_small tx.feeCharged h0 hlt]
  · intro tx hops
    simp only [classifyTx, hops]

/-- C3 witness: the soroban case of the theorem applied to the concrete
single-operation invocation with feeCharged 1000 and resource fees 200 + 100,
contributing 700 to the inclusion-fee series. -/
theorem c3_witness :
    (c3txSoroban.operations = [OperationType.invokeHostFunction] ∧
     isSorobanOp OperationType.invokeHostFunction = true ∧
     sorobanMetaOf c3txSoroban = some ⟨200, 100⟩ ∧
     (0 : Int) ≤ 200 ∧ (0 : Int) ≤ 100 ∧
     ((200 : Int) + 100) ≤ c3txSoroban.feeCharged ∧
     c3txSoroban.feeCharged < 2 ^ 63) ∧
    classifyTx c3txSoroban =
      TxContribution.soroban ((c3txSoroban.feeCharged - (200 + 100)).toNat) :=
  ⟨⟨rfl, rfl, rfl, by decide, by decide, by decide, by decide⟩,
   c3_fee_classification.1 c3txSoroban OperationType.invokeHostFunction ⟨200, 100⟩
     rfl rfl rfl (by decide) (by decide) (by decide) (by decide)⟩

/-- C10: the inclusion fee recorded by IngestFees is feeCharged minus the
total resource fee in wrapping unsigned 64-bit arithmetic, with no underflow
guard: in general the appended value is (feeCharged - resourceFee) modulo
2 to the 64, and for a transaction with feeCharged 100 and resource fee 300
the appended value is 2 to the 64 minus 200, not an error or a skip. -/
theorem c10_inclusion_fee_wraps :
    (∀ (tx : LedgerTransaction) (op : OperationType) (m : SorobanTransactionMetaExtV1),
      tx.operations = [op] → isSorobanOp op = true → sorobanMetaOf tx = some m →
      classifyTx tx = TxContribution.soroban
        (((tx.feeCharged - (m.TotalNonRefundableResourceFeeCharged +
          m.TotalRefundableResourceFeeCharged)) % (2 ^ 64 : Int)).toNat)) ∧
    classifyTx c10tx = TxContribution.soroban (2 ^ 64 - 200) ∧
    collectFees [c10tx] = ([2 ^ 64 - 200], []) := by
  refine ⟨?_, by decide, by decide⟩
  intro tx op m hops hsop hmeta
  simp only [classifyTx, hops, List.isEmpty_nil, hsop, Bool.and_self, if_true, hmeta]
  rw [subU64_u64]

/-- C10 witness: the theorem applied to the concrete underflowing
transaction. -/
theorem c10_witness :
    (c10tx.operations = [OperationType.invokeHostFunction] ∧
     isSorobanOp OperationType.invokeHostFunction = true ∧
     sorobanMetaOf c10tx = some ⟨200, 100⟩) ∧
    classifyTx c10tx =
      TxContribution.soroban (((c10tx.feeCharged - (200 + 100)) % (2 ^ 64 : Int)).toNat) :=
  ⟨⟨rfl, rfl, rfl⟩,
   c10_inclusion_fee_wraps.1 c10tx OperationType.invokeHostFunction ⟨200, 100⟩ rfl rfl rfl⟩

/-- C8: IngestFees returns an error exactly when creating the ledger
transaction reader fails, reading a transaction fails with a non-EOF error,
or either window append fails; and in every failure case the returned error
is the join of the underlying error with the result of the storage
transaction Rollback. -/
theorem c8_ingest_error_paths :
    ∀ (fw : FeeWindows) (inp : IngestInput),
      ((∃ e, fw.IngestFees inp = Except.error e) ↔
        (inp.readerCreation ≠ none ∨ inp.terminal ≠ none ∨
         (∃ e, fw.ClassicFeeWindow.AppendLedgerFees
            ⟨inp.ledgerSeq, inp.closeTime, (collectFees inp.txs).2⟩ = Except.error e) ∨
         (∃ e, fw.SorobanInclusionFeeWindow.AppendLedgerFees
            ⟨inp.ledgerSeq, inp.closeTime, (collectFees inp.txs).1⟩ = Except.error e))) ∧
      (∀ e, inp.readerCreation = some e →
        fw.IngestFees inp = Except.error (goJoin e inp.rollbackResult)) ∧
      (∀ e, inp.readerCreation = none → inp.terminal = some e →
        fw.IngestFees inp = Except.error (goJoin e inp.rollbackResult)) ∧
      (∀ e, inp.readerCreation = none → inp.terminal = none →
        fw.ClassicFeeWindow.AppendLedgerFees
          ⟨inp.ledgerSeq, inp.closeTime, (collectFees inp.txs).2⟩ = Except.error e →
        fw.IngestFees inp = Except.error (goJoin e inp.rollbackResult)) ∧
      (∀ e cw, inp.readerCreation = none → inp.terminal = none →
        fw.ClassicFeeWindow.AppendLedgerFees
          ⟨inp.ledgerSeq, inp.closeTime, (collectFees inp.txs).2⟩ = Except.ok cw →
        fw.SorobanInclusionFeeWindow.AppendLedgerFees
          ⟨inp.ledgerSeq, inp.closeTime, (collectFees inp.txs).1⟩ = Except.error e →
        fw.IngestFees inp = Except.error (goJoin e inp.rollbackResult)) := by
  intro fw inp
  rcases hrc : inp.readerCreation with _ | e1
  · rcases hterm : inp.terminal with _ | e2
    · rcases happC : fw.ClassicFeeWindow.AppendLedgerFees
          ⟨inp.ledgerSeq, inp.closeTime, (collectFees inp.txs).2⟩ with eC | cw
      · refine ⟨?_, ?_, ?_, ?_, ?_⟩
        · simp [FeeWindows.IngestFees, hrc, hterm, happC]
        · intro e he; cases he
        · intro e _ he; cases he
        · intro e _ _ he
          injection he with he2
          subst he2
          simp [FeeWindows.IngestFees, hrc, hterm, happC]
        · intro e cw2 _ _ hok _; cases hok
      · rcases happS : fw.SorobanInclusionFeeWindow.AppendLedgerFees
            ⟨inp.ledgerSeq, inp.closeTime, (collectFees inp.txs).1⟩ with eS | sw
        · refine ⟨?_, ?_, ?_, ?_, ?_⟩
          · simp [FeeWindows.IngestFees, hrc, hterm, happC, happS]
          · intro e he; cases he
          · intro e _ he; cases he
          · intro e _ _ he; cases he
          · intro e cw2 _ _ hok he
            injection hok with hok2
            subst hok2
            injection he with he2
            subst he2
            simp [FeeWindows.IngestFees, hrc, hterm, happC, happS]
        · refine ⟨?_, ?_, ?_, ?_, ?_⟩
          · simp [FeeWindows.IngestFees, hrc, hterm, happC, happS]
          · intro e he; cases he
          · intro e _ he; cases he
          · intro e _ _ he; cases he
          · intro e cw2 _ _ _ he; cases he
    · refine ⟨?_, ?_, ?_, ?_, ?_⟩
      · simp [FeeWindows.IngestFees, hrc, hterm]
      · intro e he; cases he
      · intro e _ he
        injection he with he2
        subst he2
        simp [FeeWindows.IngestFees, hrc, hterm]
      · intro e _ hn; cases hn
      · intro e cw2 _ hn; cases hn
  · refine ⟨?_, ?_, ?_, ?_, ?_⟩
    · simp [FeeWindows.IngestFees, hrc]
    · intro e he
      injection he with he2
      subst he2
      simp [FeeWindows.IngestFees, hrc]
    · intro e hn; cases hn
    · intro e hn; cases hn
    · intro e cw2 hn; cases hn

/-- C8 witness: the reader-creation failure path on a concrete input joins
the creation error with the rollback error. -/
theorem c8_witness :
    (c8inp.readerCreation = some ("reader creation failed")) ∧
    FeeWindows.IngestFees c8fw c8inp =
      Except.error (goJoin ("reader creation failed") c8inp.rollbackResult) :=
  ⟨rfl, (c8_ingest_error_paths c8fw c8inp).2.1 ("reader creation failed") rfl⟩

/-- C9: after a successful AppendLedgerFees call, if the flattened fee
contents of all retained buckets are empty, the cached distribution is the
all-zero FeeDistribution; in particular its LedgerCount field is 0 even when
the window retains a positive number of ledger buckets, because the
empty-fees case of computeFeeDistribution returns the zero value without
using the ledger count. -/
theorem c9_empty_fees_zero_distribution :
    ∀ (fw fw2 : FeeWindow) (fees : LedgerBucket (List Nat)),
      fw.AppendLedgerFees fees = Except.ok fw2 →
      flattenFees (fw2.feesPerLedger.buckets.map LedgerBucket.BucketContent) = [] →
      fw2.distribution = ⟨0, 0, 0, 0, 0, 0, 0, 0, 0, 0, 0, 0, 0, 0, 0, 0⟩ ∧
      fw2.distribution.LedgerCount = 0 := by
  intro fw fw2 fees happ hflat
  rcases hwin : fw.feesPerLedger.Append fees with e | w2
  · rw [FeeWindow.AppendLedgerFees, hwin] at happ; cases happ
  · rw [FeeWindow.AppendLedgerFees, hwin] at happ
    simp only at happ
    injection happ with happ2
    subst happ2
    simp only at hflat
    rw [hflat]
    exact ⟨rfl, rfl⟩

/-- C9 witness: appending an empty-fee bucket to a window already retaining
one empty-fee bucket leaves two retained buckets and the all-zero
distribution, whose LedgerCount is 0 despite the two retained buckets. -/
theorem c9_witness :
    (FeeWindow.AppendLedgerFees c9win c9bucket = Except.ok c9res ∧
     flattenFees (c9res.feesPerLedger.buckets.map LedgerBucket.BucketContent) = []) ∧
    (c9res.distribution = ⟨0, 0, 0, 0, 0, 0, 0, 0, 0, 0, 0, 0, 0, 0, 0, 0⟩ ∧
     c9res.distribution.LedgerCount = 0) ∧
    0 < c9res.feesPerLedger.buckets.length :=
  ⟨⟨rfl, rfl⟩,
   c9_empty_fees_zero_distribution c9win c9res c9bucket rfl rfl,
   by decide⟩

/-- Indexing a nonempty list at length - 1 is getLastD of the tail. -/
theorem getD_last_cons (rest : List Nat) : ∀ f0 : Nat,
    (f0 :: rest).getD ((f0 :: rest).length - 1) 0 = rest.getLastD f0 := by
  induction rest with
  | nil => intro f0; rfl
  | cons x xs ih =>
    intro f0
    simp only [List.length_cons, Nat.add_sub_cancel, List.getD_cons_succ, List.getLastD_cons]
    have h2 := ih x
    simpa using h2

/-- The mode scan finished by the end-of-loop promotion computes the same
value as the strict-improvement fold over the runs of the remaining input,
started from the pending run and the current best. -/
theorem modeScan_bestRun : ∀ (rest : List Nat) (mode lastVal maxRep localRep : Nat),
    (if (modeScan rest ⟨mode, lastVal, maxRep, localRep⟩).localRep >
        (modeScan rest ⟨mode, lastVal, maxRep, localRep⟩).maxRep
      then rest.getLastD lastVal
      else (modeScan rest ⟨mode, lastVal, maxRep, localRep⟩).mode)
    = (bestRun (runsAux lastVal (localRep + 1) rest) (mode, maxRep + 1)).1 := by
  intro rest
  induction rest with
  | nil =>
    intro mode lastVal maxRep localRep
    by_cases h : localRep > maxRep
    · simp [modeScan, runsAux, bestRun, h, Nat.add_lt_add_iff_right, List.getLastD]
    · simp [modeScan, runsAux, bestRun, h, Nat.add_lt_add_iff_right]
  | cons x xs ih =>
    intro mode lastVal maxRep localRep
    by_cases hx : x = lastVal
    · subst hx
      simp only [modeScan, if_pos rfl, runsAux, List.getLastD_cons]
      exact ih mode x maxRep (localRep + 1)
    · by_cases hrep : localRep > maxRep
      · simp only [modeScan, if_neg hx, if_pos hrep, runsAux, List.getLastD_cons,
          bestRun, Nat.add_lt_add_iff_right]
        have := ih lastVal x localRep 0
        simpa [hrep] using this
      · simp only [modeScan, if_neg hx, if_neg hrep, runsAux, List.getLastD_cons,
          bestRun, Nat.add_lt_add_iff_right]
        have := ih mode x maxRep 0
        simpa [hrep] using this

/-- computeModeGo on a nonempty sorted list is the strict-improvement fold
over its runs, seeded with the head value. -/
theorem computeModeGo_eq_bestRun (f0 : Nat) (rest : List Nat) :
    computeModeGo (f0 :: rest) = (bestRun (runsAux f0 1 rest) (f0, 1)).1 := by
  have h := modeScan_bestRun rest f0 f0 0 0
  simp only [computeModeGo]
  rw [getD_last_cons rest f0]
  exact h

/-- The strict-improvement fold returns a first-encountered maximum of the
accumulator-extended list: an element no later entry strictly exceeds and
every earlier entry is strictly below. -/
theorem bestRun_first_longest : ∀ (rs : List (Nat × Nat)) (best : Nat × Nat),
    ∃ i, i < rs.length + 1 ∧
      (best :: rs).getD i (0, 0) = bestRun rs best ∧
      (∀ j, j < rs.length + 1 → ((best :: rs).getD j (0, 0)).2 ≤ (bestRun rs best).2) ∧
      (∀ j, j < i → ((best :: rs).getD j (0, 0)).2 < (bestRun rs best).2) := by
  intro rs
  induction rs with
  | nil =>
    intro best
    refine ⟨0, by omega, rfl, ?_, ?_⟩
    · intro j hj
      simp only [List.length_nil] at hj
      have hj0 : j = 0 := by omega
      subst hj0
      simp [bestRun]
    · intro j hj
      omega
  | cons r rs ih =>
    intro best
    by_cases h : r.2 > best.2
    · obtain ⟨i, hi, hget, hub, hstrict⟩ := ih r
      refine ⟨i + 1, by simpa using Nat.add_lt_add_right hi 1, ?_, ?_, ?_⟩
      · simp only [bestRun, if_pos h, List.getD_cons_succ]
        exact hget
      · intro j hj
        simp only [bestRun, if_pos h]
        cases j with
        | zero =>
          have h0 := hub 0 (by omega)
          simp only [List.getD_cons_zero] at h0 ⊢
          omega
        | succ j2 =>
          have h2 := hub j2 (by simp at hj; omega)
          simpa [List.getD_cons_succ] using h2
      · intro j hj
        simp only [bestRun, if_pos h]
        cases j with
        | zero =>
          have h0 := hub 0 (by omega)
          simp only [List.getD_cons_zero] at h0 ⊢
          omega
        | succ j2 =>
          have h2 := hstrict j2 (by omega)
          simpa [List.getD_cons_succ] using h2
    · obtain ⟨i, hi, hget, hub, hstrict⟩ := ih best
      cases i with
      | zero =>
        refine ⟨0, by omega, ?_, ?_, ?_⟩
        · simp only [bestRun, if_neg h]
          simpa using hget
        · intro j hj
          simp only [bestRun, if_neg h]
          cases j with
          | zero =>
            simpa using hub 0 (by omega)
          | succ j2 =>
            cases j2 with
            | zero =>
              have hb := hub 0 (by omega)
              have hr : (best :: rs).getD 0 (0, 0) = bestRun rs best := hget
              simp only [List.getD_cons_zero] at hb hr
              have hr2 := congrArg Prod.snd hr
              simp only [List.getD_cons_succ, List.getD_cons_zero]
              simp only at hr2
              omega
            | succ j3 =>
              have h2 := hub (j3 + 1) (by simp at hj; omega)
              simpa [List.getD_cons_succ] using h2
        · intro j hj
          omega
      | succ i2 =>
        refine ⟨i2 + 2, by simp only [List.length_cons]; simp at hi; omega, ?_, ?_, ?_⟩
        · simp only [bestRun, if_neg h, List.getD_cons_succ]
          simpa [List.getD_cons_succ] using hget
        · intro j hj
          simp only [bestRun, if_neg h]
          cases j with
          | zero =>
            simpa using hub 0 (by omega)
          | succ j2 =>
            cases j2 with
            | zero =>
              have hb := hub 0 (by omega)
              simp only [List.getD_cons_zero] at hb
              simp only [List.getD_cons_succ, List.getD_cons_zero]
              have hr2 : r.2 ≤ best.2 := by omega
              omega
            | succ j3 =>
              have h2 := hub (j3 + 1) (by simp at hj; omega)
              simpa [List.getD_cons_succ] using h2
        · intro j hj
          simp only [bestRun, if_neg h]
          cases j with
          | zero =>
            have h0 := hstrict 0 (by omega)
            simpa using h0
          | succ j2 =>
            cases j2 with
            | zero =>
              have h0 := hstrict 0 (by omega)
              simp only [List.getD_cons_zero] at h0
              simp only [List.getD_cons_succ, List.getD_cons_zero]
              omega
            | succ j3 =>
              have h2 := hstrict (j3 + 1) (by omega)
              simpa [List.getD_cons_succ] using h2

/-- runsAux starts with a run of the pending value, at least as long as the
pending count. -/
theorem runsAux_head : ∀ (rest : List Nat) (v k : Nat),
    ∃ k2 tail, runsAux v k rest = (v, k2) :: tail ∧ k ≤ k2 := by
  intro rest
  induction rest with
  | nil =>
    intro v k
    exact ⟨k, [], rfl, Nat.le_refl k⟩
  | cons x xs ih =>
    intro v k
    by_cases hx : x = v
    · obtain ⟨k2, tail, heq, hle⟩ := ih v (k + 1)
      exact ⟨k2, tail, by simp [runsAux, hx, heq], by omega⟩
    · exact ⟨k, runsAux x 1 xs, by simp [runsAux, hx], Nat.le_refl k⟩

/-- C5: for every non-empty fee sequence, the Mode computed by
computeFeeDistribution is the value of a run of equal consecutive values of
the ascending-sorted fees which no other run exceeds in length and which
every earlier run is strictly shorter than: the first-encountered maximal
run wins ties (the smallest value, since runs are scanned in ascending
order), and the final run wins exactly when it is strictly the longest; on
[3,3,9,9] the tied runs give mode 3, on [5,7,7] the final run wins giving 7,
and on [10,10,10,20,30] the mode is 10. -/
theorem c5_mode_first_longest_run :
    (∀ (fees : List Nat) (n : Nat), fees ≠ [] →
      ∃ i, IsFirstLongestRun (runsOf (List.insertionSort (· ≤ ·) fees)) i ∧
        ((runsOf (List.insertionSort (· ≤ ·) fees)).getD i (0, 0)).1 =
          (computeFeeDistribution fees n).Mode) ∧
    (computeFeeDistribution [10, 10, 10, 20, 30] 1).Mode = 10 ∧
    (computeFeeDistribution [5, 7, 7] 1).Mode = 7 ∧
    (computeFeeDistribution [3, 3, 9, 9] 1).Mode = 3 ∧
    runsOf (List.insertionSort (· ≤ ·) [3, 3, 9, 9]) = [(3, 2), (9, 2)] ∧
    runsOf (List.insertionSort (· ≤ ·) [5, 7, 7]) = [(5, 1), (7, 2)] := by
  refine ⟨?_, by decide, by decide, by decide, by decide, by decide⟩
  intro fees n h
  have hpos : 0 < fees.length := List.length_pos.mpr h
  have hlen0 : ¬ fees.length = 0 := by omega
  have hMode : (computeFeeDistribution fees n).Mode =
      computeModeGo (List.insertionSort (· ≤ ·) fees) := by
    simp [computeFeeDistribution, h, hlen0]
  have hslen : (List.insertionSort (· ≤ ·) fees).length = fees.length :=
    (List.perm_insertionSort _ fees).length_eq
  obtain ⟨f0, rest, hfr⟩ : ∃ f0 rest, List.insertionSort (· ≤ ·) fees = f0 :: rest := by
    cases hs : List.insertionSort (· ≤ ·) fees with
    | nil => rw [hs] at hslen; simp at hslen; omega
    | cons a l => exact ⟨a, l, rfl⟩
  rw [hMode, hfr, computeModeGo_eq_bestRun]
  simp only [runsOf]
  obtain ⟨k1, tail, hrs, hk1⟩ := runsAux_head rest f0 1
  obtain ⟨i0, hi0, hget, hub, hstrict⟩ := bestRun_first_longest (runsAux f0 1 rest) (f0, 1)
  cases i0 with
  | zero =>
    have hres : bestRun (runsAux f0 1 rest) (f0, 1) = (f0, 1) := by
      simpa using hget.symm
    have h0v : ((runsAux f0 1 rest).getD 0 (0, 0)).1 = f0 := by rw [hrs]; rfl
    have h0k : ((runsAux f0 1 rest).getD 0 (0, 0)).2 = k1 := by rw [hrs]; rfl
    refine ⟨0, ⟨?_, ?_, ?_⟩, ?_⟩
    · rw [hrs]; simp
    · intro j hj
      have h2 := hub (j + 1) (by omega)
      rw [hres] at h2
      simp only [List.getD_cons_succ] at h2
      rw [h0k]
      omega
    · intro j hj
      omega
    · rw [h0v, hres]
  | succ i2 =>
    have hgt : (runsAux f0 1 rest).getD i2 (0, 0) =
        bestRun (runsAux f0 1 rest) (f0, 1) := by
      simpa [List.getD_cons_succ] using hget
    refine ⟨i2, ⟨?_, ?_, ?_⟩, ?_⟩
    · omega
    · intro j hj
      have h2 := hub (j + 1) (by omega)
      simp only [List.getD_cons_succ] at h2
      rw [hgt]
      exact h2
    · intro j hj
      have h2 := hstrict (j + 1) (by omega)
      simp only [List.getD_cons_succ] at h2
      rw [hgt]
      exact h2
    · rw [hgt]

/-- C5 witness: the theorem applied to [3,3,9,9], whose tied runs (3,2) and
(9,2) make the first-encountered run with value 3 the mode. -/
theorem c5_witness :
    ([3, 3, 9, 9] ≠ ([] : List Nat)) ∧
    (∃ i, IsFirstLongestRun (runsOf (List.insertionSort (· ≤ ·) [3, 3, 9, 9])) i ∧
      ((runsOf (List.insertionSort (· ≤ ·) [3, 3, 9, 9])).getD i (0, 0)).1 =
        (computeFeeDistribution [3, 3, 9, 9] 1).Mode) :=
  ⟨by decide, c5_mode_first_longest_run.1 [3, 3, 9, 9] 1 (by decide)⟩

/-- getD past the length is the default. -/
theorem getD_of_le {α : Type} : ∀ (l : List α) (i : Nat) (d : α),
    l.length ≤ i → l.getD i d = d := by
  intro l
  induction l with
  | nil => intro i d _; cases i <;> rfl
  | cons a t ih =>
    intro i d hi
    cases i with
    | zero => simp at hi
    | succ i2 =>
      simp only [List.getD_cons_succ]
      exact ih i2 d (by simp at hi; omega)

/-- getD after set at the same in-range position yields the new value. -/
theorem getD_set_self {α : Type} : ∀ (l : List α) (i : Nat) (v d : α),
    i < l.length → (l.set i v).getD i d = v := by
  intro l
  induction l with
  | nil => intro i v d hi; simp at hi
  | cons a t ih =>
    intro i v d hi
    cases i with
    | zero => rfl
    | succ i2 =>
      simp only [List.set_cons_succ, List.getD_cons_succ]
      exact ih i2 v d (by simp at hi; omega)

/-- getD after set at a different position is unchanged. -/
theorem getD_set_ne {α : Type} : ∀ (l : List α) (i j : Nat) (v d : α),
    i ≠ j → (l.set i v).getD j d = l.getD j d := by
  intro l
  induction l with
  | nil => intro i j v d _; simp
  | cons a t ih =>
    intro i j v d hij
    cases i with
    | zero =>
      cases j with
      | zero => exact absurd rfl hij
      | succ j2 => simp [List.set_cons_zero, List.getD_cons_succ]
    | succ i2 =>
      cases j with
      | zero => simp [List.set_cons_succ, List.getD_cons_zero]
      | succ j2 =>
        simp only [List.set_cons_succ, List.getD_cons_succ]
        exact ih i2 j2 v d (by omega)

/-- An in-range getD value is a member of the list. -/
theorem getD_mem {α : Type} : ∀ (l : List α) (i : Nat) (d : α),
    i < l.length → l.getD i d ∈ l := by
  intro l
  induction l with
  | nil => intro i d hi; simp at hi
  | cons a t ih =>
    intro i d hi
    cases i with
    | zero => simp
    | succ i2 =>
      simp only [List.getD_cons_succ]
      exact List.mem_cons_of_mem a (ih i2 d (by simp at hi; omega))

/-- How countP changes under a single in-range set: the old value leaves, the
new value enters. -/
theorem countP_set {α : Type} (p : α → Bool) : ∀ (l : List α) (i : Nat) (v d : α),
    i < l.length →
    (l.set i v).countP p + (if p (l.getD i d) then 1 else 0)
      = l.countP p + (if p v then 1 else 0) := by
  intro l
  induction l with
  | nil => intro i v d hi; simp at hi
  | cons a t ih =>
    intro i v d hi
    cases i with
    | zero =>
      simp only [List.set_cons_zero, List.getD_cons_zero, List.countP_cons]
      omega
    | succ i2 =>
      simp only [List.set_cons_succ, List.getD_cons_succ, List.countP_cons]
      have h2 := ih i2 v d (by simp at hi; omega)
      omega

/-- The fresh request pool has no active requests. -/
theorem countActive_replicate : ∀ N : Nat,
    countActive (List.replicate N ReqPhase.pending) = 0 := by
  intro N
  induction N with
  | zero => rfl
  | succ n ih =>
    rw [List.replicate_succ, countActive, List.countP_cons]
    rw [countActive] at ih
    simp [ih]

/-- An active request at an in-range position makes the active count
positive. -/
theorem countActive_pos (l : List ReqPhase) (i : Nat) (hi : i < l.length)
    (h : l.getD i ReqPhase.finished = ReqPhase.active) : 0 < countActive l := by
  have hmem : ReqPhase.active ∈ l := h ▸ getD_mem l i ReqPhase.finished hi
  rw [countActive, List.countP_pos_iff]
  exact ⟨ReqPhase.active, hmem, by decide⟩

/-- One limiter step preserves the counter-equals-active-count invariant and
the bound by the limit, and keeps the pool size. -/
theorem limiter_inv_step {L : Nat} {s s2 : LimiterSys} (hstep : LimiterStep s s2)
    (hL : s.limit = L) (hcount : s.current = countActive s.reqs) (hle : s.current ≤ L) :
    s2.limit = L ∧ s2.reqs.length = s.reqs.length ∧
    s2.current = countActive s2.reqs ∧ s2.current ≤ L := by
  cases hstep with
  | acquire i hp hroom =>
    have hi : i < s.reqs.length := by
      by_contra hge
      rw [getD_of_le s.reqs i ReqPhase.finished (by omega)] at hp
      cases hp
    have hset := countP_set (fun r => decide (r = ReqPhase.active)) s.reqs i
      ReqPhase.active ReqPhase.finished hi
    rw [hp] at hset
    simp only [decide_eq_true_eq, reduceCtorEq, if_false, if_true, decide_True] at hset
    refine ⟨hL, by simp [List.length_set], ?_, by show s.current + 1 ≤ L; omega⟩
    show s.current + 1 = countActive (s.reqs.set i ReqPhase.active)
    rw [countActive] at hcount ⊢
    omega
  | reject i hp hfull =>
    have hi : i < s.reqs.length := by
      by_contra hge
      rw [getD_of_le s.reqs i ReqPhase.finished (by omega)] at hp
      cases hp
    have hset := countP_set (fun r => decide (r = ReqPhase.active)) s.reqs i
      ReqPhase.rejectedBacklogFull ReqPhase.finished hi
    rw [hp] at hset
    simp only [decide_eq_true_eq, reduceCtorEq, if_false] at hset
    refine ⟨hL, by simp [List.length_set], ?_, hle⟩
    show s.current = countActive (s.reqs.set i ReqPhase.rejectedBacklogFull)
    rw [countActive] at hcount ⊢
    omega
  | finish i ha =>
    have hi : i < s.reqs.length := by
      by_contra hge
      rw [getD_of_le s.reqs i ReqPhase.finished (by omega)] at ha
      cases ha
    have hpos := countActive_pos s.reqs i hi ha
    have hset := countP_set (fun r => decide (r = ReqPhase.active)) s.reqs i
      ReqPhase.finished ReqPhase.finished hi
    rw [ha] at hset
    simp only [decide_eq_true_eq, reduceCtorEq, if_false, if_true, decide_True] at hset
    refine ⟨hL, by simp [List.length_set], ?_, by show s.current - 1 ≤ L; omega⟩
    show s.current - 1 = countActive (s.reqs.set i ReqPhase.finished)
    rw [countActive] at hcount hpos ⊢
    omega

/-- Invariant of every reachable limiter state: the limit is the configured
one, the pool size is N, the in-flight counter equals the number of active
requests, and it never exceeds the limit. -/
theorem limiter_inv {N L : Nat} {s : LimiterSys} (h : ReachableSys N L s) :
    s.limit = L ∧ s.reqs.length = N ∧ s.current = countActive s.reqs ∧ s.current ≤ L := by
  induction h with
  | refl =>
    refine ⟨rfl, by simp [initSys], ?_, by simp [initSys]⟩
    simp [initSys, countActive_replicate]
  | tail hsteps hstep ih =>
    obtain ⟨hL, hN, hcount, hle⟩ := ih
    obtain ⟨h1, h2, h3, h4⟩ := limiter_inv_step hstep hL hcount hle
    exact ⟨h1, by omega, h3, h4⟩

/-- C2: for every backlog limiter with limit L and every set of N requests,
in every reachable interleaving state the in-flight counter equals the number
of concurrently admitted requests and never exceeds L (so 0 <= current <=
limit always and at most L requests are ever admitted concurrently); once
every request has completed or been rejected the counter is 0; and a pending
request is rejected with the distinct backlog-full outcome only when the
counter has reached L, leaving the counter untouched. -/
theorem c2_backlog_limiter :
    ∀ (N L : Nat) (s : LimiterSys), ReachableSys N L s →
      (s.limit = L ∧ s.reqs.length = N ∧ s.current = countActive s.reqs ∧
       s.current ≤ L ∧ countActive s.reqs ≤ L) ∧
      ((∀ r ∈ s.reqs, r = ReqPhase.finished ∨ r = ReqPhase.rejectedBacklogFull) →
        s.current = 0) ∧
      (∀ s2 i, LimiterStep s s2 →
        s.reqs.getD i ReqPhase.finished = ReqPhase.pending →
        s2.reqs.getD i ReqPhase.finished = ReqPhase.rejectedBacklogFull →
        L ≤ s.current ∧ s2.current = s.current) := by
  intro N L s h
  obtain ⟨hL, hN, hcount, hle⟩ := limiter_inv h
  refine ⟨⟨hL, hN, hcount, hle, by omega⟩, ?_, ?_⟩
  · intro hall
    have hzero : countActive s.reqs = 0 := by
      rw [countActive, List.countP_eq_zero]
      intro a ha
      rcases hall a ha with rfl | rfl <;> decide
    omega
  · intro s2 i hstep hpend hrej
    cases hstep with
    | acquire j hp hroom =>
      by_cases hij : j = i
      · subst hij
        have hjlen : j < s.reqs.length := by
          by_contra hge
          rw [getD_of_le s.reqs j ReqPhase.finished (by omega)] at hp
          cases hp
        rw [getD_set_self s.reqs j ReqPhase.active ReqPhase.finished hjlen] at hrej
        cases hrej
      · rw [getD_set_ne s.reqs j i ReqPhase.active ReqPhase.finished hij, hpend] at hrej
        cases hrej
    | reject j hp hfull =>
      by_cases hij : j = i
      · exact ⟨by omega, rfl⟩
      · rw [getD_set_ne s.reqs j i ReqPhase.rejectedBacklogFull ReqPhase.finished hij,
          hpend] at hrej
        cases hrej
    | finish j ha =>
      by_cases hij : j = i
      · subst hij
        rw [hpend] at ha
        cases ha
      · rw [getD_set_ne s.reqs j i ReqPhase.finished ReqPhase.finished hij, hpend] at hrej
        cases hrej

/-- C2 witness: the initial state of two requests against a limiter of limit
1 is reachable and satisfies the theorem conclusions. -/
theorem c2_witness :
    ReachableSys 2 1 (initSys 2 1) ∧
    (((initSys 2 1).limit = 1 ∧ (initSys 2 1).reqs.length = 2 ∧
      (initSys 2 1).current = countActive (initSys 2 1).reqs ∧
      (initSys 2 1).current ≤ 1 ∧ countActive (initSys 2 1).reqs ≤ 1) ∧
     ((∀ r ∈ (initSys 2 1).reqs, r = ReqPhase.finished ∨ r = ReqPhase.rejectedBacklogFull) →
       (initSys 2 1).current = 0) ∧
     (∀ s2 i, LimiterStep (initSys 2 1) s2 →
       (initSys 2 1).reqs.getD i ReqPhase.finished = ReqPhase.pending →
       s2.reqs.getD i ReqPhase.finished = ReqPhase.rejectedBacklogFull →
       1 ≤ (initSys 2 1).current ∧ s2.current = (initSys 2 1).current)) :=
  ⟨Relation.ReflTransGen.refl, c2_backlog_limiter 2 1 (initSys 2 1) Relation.ReflTransGen.refl⟩
